import Mathlib

/-!
Verification development for the explode engine of the `demo-web3d` viewer
(`src/app/p/[slug]/ViewerClient.tsx`).

The embedding translates the TypeScript source into Lean:
* vectors are rational triples (`V3`); the floating-point arithmetic of the
  source is modelled by exact arithmetic, with the square root needed by
  `THREE.Vector3.normalize` carried out over the reals (`VR`);
* geometries are attribute lists (`Geom`), meshes carry a position, a
  geometry, a material list and the skinned data (`Mesh`);
* node transforms are modelled as translations (the claims under
  verification concern positions, centers, directions, part counts and
  material identity; rotations and scales play no role in them);
* materials live in an identity store (`MatStore`) so that the
  reference-equality based memoization of `toSafeMaterial` is observable;
* the React effect of `ExplodableModel` that builds the exploded clone is
  `buildParts`, and the commit/dependency semantics of that effect is the
  step function `commit` on `RenderSession`.
-/

namespace Demo3D

/-- Rational 3-vector, the model of `THREE.Vector3` coordinates. -/
structure V3 where
  x : ℚ
  y : ℚ
  z : ℚ
deriving DecidableEq, Repr

/-- Rational 2-vector, the model of a `uv` entry. -/
structure V2 where
  x : ℚ
  y : ℚ
deriving DecidableEq, Repr

def V3.add (u v : V3) : V3 := ⟨u.x + v.x, u.y + v.y, u.z + v.z⟩

def V3.sub (u v : V3) : V3 := ⟨u.x - v.x, u.y - v.y, u.z - v.z⟩

/-- Squared length, the model of `THREE.Vector3.lengthSq`. -/
def V3.lengthSq (v : V3) : ℚ := v.x * v.x + v.y * v.y + v.z * v.z

/-- Axis-aligned bounding box, the model of `THREE.Box3`. -/
structure Box3 where
  bmin : V3
  bmax : V3
deriving DecidableEq, Repr

def Box3.expand (b : Box3) (q : V3) : Box3 :=
  ⟨⟨min b.bmin.x q.x, min b.bmin.y q.y, min b.bmin.z q.z⟩,
   ⟨max b.bmax.x q.x, max b.bmax.y q.y, max b.bmax.z q.z⟩⟩

/-- Bounding box of a point list (`BufferGeometry.computeBoundingBox`).
The empty case never arises in the verified claims. -/
def bboxOf (ps : List V3) : Box3 :=
  match ps with
  | [] => ⟨⟨0, 0, 0⟩, ⟨0, 0, 0⟩⟩
  | p :: rest => rest.foldl Box3.expand ⟨p, p⟩

/-- Center of a box (`Box3.getCenter`). -/
def Box3.center (b : Box3) : V3 :=
  ⟨(b.bmin.x + b.bmax.x) / 2, (b.bmin.y + b.bmax.y) / 2, (b.bmin.z + b.bmax.z) / 2⟩

/-- Size of a box (`Box3.getSize`). -/
def Box3.size (b : Box3) : V3 :=
  ⟨b.bmax.x - b.bmin.x, b.bmax.y - b.bmin.y, b.bmax.z - b.bmin.z⟩

def Box3.union (b c : Box3) : Box3 :=
  ⟨⟨min b.bmin.x c.bmin.x, min b.bmin.y c.bmin.y, min b.bmin.z c.bmin.z⟩,
   ⟨max b.bmax.x c.bmax.x, max b.bmax.y c.bmax.y, max b.bmax.z c.bmax.z⟩⟩

def Box3.translate (b : Box3) (t : V3) : Box3 := ⟨b.bmin.add t, b.bmax.add t⟩

/-- A `geometry.groups` record: `{start, count, materialIndex}`. -/
structure MatGroup where
  start : ℕ
  count : ℕ
  materialIndex : Option ℕ
deriving DecidableEq, Repr

/-- A `THREE.BufferGeometry`: attribute lists keyed by name, an optional
index buffer and the material groups.  Materials are identified by the
ids of `MatStore`. -/
structure Geom where
  positions : List V3
  normals : Option (List V3)
  uvs : Option (List V2)
  index : Option (List ℕ)
  groups : List MatGroup
deriving DecidableEq, Repr

/-- A mesh node: translation, geometry, material slot list and the skinned
data (`SkinnedMesh.skeleton` is a shared reference, modelled by an id). -/
structure Mesh where
  position : V3
  geometry : Geom
  materials : List ℕ
  skinned : Bool
  skeleton : Option ℕ
deriving DecidableEq, Repr

/-- Vertex read with the out-of-range junk of `BufferAttribute.getX/Y/Z`
collapsed to the origin; the claims restrict attention to valid indices. -/
def getV (ps : List V3) (i : ℕ) : V3 := ps.getD i ⟨0, 0, 0⟩

/-- A triangle of source vertex indices. -/
structure Tri where
  a : ℕ
  b : ℕ
  c : ℕ
deriving DecidableEq, Repr

/-- Consecutive index triples, as read by the `i += 3` loops of the source;
an incomplete trailing chunk is dropped. -/
def chunk3 : List ℕ → List Tri
  | a :: b :: c :: rest => ⟨a, b, c⟩ :: chunk3 rest
  | _ => []

/-- Triangle list of a geometry: the index buffer when present, else the
implicit `0, 1, 2, ...` order over the position attribute
(`subdivideGeometry`, lines 269-288). -/
def triangleList (g : Geom) : List Tri :=
  chunk3 (g.index.getD (List.range g.positions.length))

/-- World-space bounding box of a mesh (`Box3.setFromObject`) under the
translation transform model. -/
def worldBox (m : Mesh) : Box3 := (bboxOf m.geometry.positions).translate m.position

/-- Bounding box of the whole assembly (`Box3.setFromObject(origRoot)`). -/
def sceneBox (ms : List Mesh) : Box3 :=
  match ms with
  | [] => ⟨⟨0, 0, 0⟩, ⟨0, 0, 0⟩⟩
  | m :: rest => rest.foldl (fun b m2 => b.union (worldBox m2)) (worldBox m)

/-- Axis selection of `subdivideGeometry` line 233:
`size.x > size.y ? (size.x > size.z ? x : z) : (size.y > size.z ? y : z)`,
encoded as 0 / 1 / 2. -/
def largestAxis (s : V3) : ℕ :=
  if s.x > s.y then (if s.x > s.z then 0 else 2) else (if s.y > s.z then 1 else 2)

def V3.comp (v : V3) (axis : ℕ) : ℚ :=
  if axis = 0 then v.x else if axis = 1 then v.y else v.z

/-- The `vertices` array of `subdivideGeometry` lines 236-246: pairs of a
source vertex index and its coordinate along the chosen axis. -/
def enumVerts (g : Geom) : List (ℕ × ℚ) :=
  let axis := largestAxis (bboxOf g.positions).size
  (List.range g.positions.length).map (fun i => (i, (getV g.positions i).comp axis))

/-- Stable insertion placing `x` before the first element whose key is not
smaller; together with `sortVerts` this is the stable ascending sort
`vertices.sort((a, b) => a.value - b.value)` of line 249. -/
def insertAsc (x : ℕ × ℚ) : List (ℕ × ℚ) → List (ℕ × ℚ)
  | [] => [x]
  | y :: ys => if y.2 < x.2 then y :: insertAsc x ys else x :: y :: ys

def sortVerts : List (ℕ × ℚ) → List (ℕ × ℚ)
  | [] => []
  | x :: xs => insertAsc x (sortVerts xs)

def sortedVerts (g : Geom) : List (ℕ × ℚ) := sortVerts (enumVerts g)

/-- `verticesPerPart = Math.ceil(vertices.length / numParts)` (line 253). -/
def vppOf (n numParts : ℕ) : ℕ := (n + numParts - 1) / numParts

/-- The vertex indices of slice `p`:
`vertices.slice(startIdx, endIdx).map(v => v.index)` (line 262). -/
def partSlice (g : Geom) (numParts p : ℕ) : List ℕ :=
  let vpp := vppOf g.positions.length numParts
  (((sortedVerts g).drop (p * vpp)).take vpp).map Prod.fst

/-- Triangle selection for part `p` (lines 255-290): `none` models both the
`break` on an exhausted slice and the `continue` on an empty triangle set;
a triangle is kept when any of its three vertices lies in the slice. -/
def partTrisOf (g : Geom) (numParts p : ℕ) : Option (List Tri) :=
  let n := g.positions.length
  let vpp := vppOf n numParts
  if n ≤ p * vpp then none
  else
    let ids := partSlice g numParts p
    let pt := (triangleList g).filter
      (fun t => ids.contains t.a || ids.contains t.b || ids.contains t.c)
    if pt.isEmpty then none else some pt

/-- Accumulator of the first-seen compaction map (lines 296-333 and the
identical inline copy at lines 627-643). -/
structure CompactAcc where
  remap : List (ℕ × ℕ)
  newPos : List V3
  newNrm : List V3
  newUv : List V2
  newIdx : List ℕ

def compactStep (g : Geom) (acc : CompactAcc) (oi : ℕ) : CompactAcc :=
  match acc.remap.lookup oi with
  | some ni => { acc with newIdx := acc.newIdx ++ [ni] }
  | none =>
    let ni := acc.remap.length
    { remap := acc.remap ++ [(oi, ni)]
      newPos := acc.newPos ++ [getV g.positions oi]
      newNrm := match g.normals with
        | some ns => acc.newNrm ++ [getV ns oi]
        | none => acc.newNrm
      newUv := match g.uvs with
        | some us => acc.newUv ++ [us.getD oi ⟨0, 0⟩]
        | none => acc.newUv
      newIdx := acc.newIdx ++ [ni] }

/-- Attribute-complete compacted sub-geometry built from a flat list of
source vertex indices; attributes absent on the source stay absent
(`newNormals.length > 0` checks of lines 337-342 / 648-649). -/
def compactIdx (g : Geom) (srcIdx : List ℕ) : Geom :=
  let acc := srcIdx.foldl (compactStep g) ⟨[], [], [], [], []⟩
  { positions := acc.newPos
    normals := if acc.newNrm.isEmpty then none else some acc.newNrm
    uvs := if acc.newUv.isEmpty then none else some acc.newUv
    index := some acc.newIdx
    groups := [] }

def flatTris (ts : List Tri) : List ℕ := ts.flatMap (fun t => [t.a, t.b, t.c])

/-- The part mesh built at lines 349-356: a plain (non-skinned)
`THREE.Mesh` over the compacted geometry, reusing `mesh.material` and
copying the transform. -/
def mkSubMesh (m : Mesh) (cg : Geom) : Mesh :=
  { position := m.position
    geometry := cg
    materials := m.materials
    skinned := false
    skeleton := none }

/-- `subdivideGeometry(mesh, numParts)` (lines 218-360): sort the vertices
along the largest bounding-box axis, slice them into `numParts` runs of
`ceil(n / numParts)` vertices, give each slice every triangle touching it,
and emit one compacted part mesh per slice that received a triangle. -/
def subdivideGeometry (m : Mesh) (numParts : ℕ) : List Mesh :=
  (List.range numParts).filterMap
    (fun p => (partTrisOf m.geometry numParts p).map
      (fun pt => mkSubMesh m (compactIdx m.geometry (flatTris pt))))

/-! ### Material safety converter (`toSafeMaterial`, lines 416-444) -/

/-- Observable state of one `THREE.Material`.  `isStdPhys` is the
`instanceof MeshStandardMaterial || instanceof MeshPhysicalMaterial` test;
`hook` models an installed `onBeforeCompile` shader-injection hook;
`color`, `mapTex` and `side` are the optional fields read through
`MaterialMaybePBR`. -/
structure MatRec where
  isStdPhys : Bool
  hook : Bool
  color : Option ℕ
  mapTex : Option ℕ
  metalness : ℚ
  roughness : ℚ
  side : Option ℕ
  needsUpdate : Bool
  disposed : Bool
deriving DecidableEq, Repr

/-- Identity store of material objects: reference equality of the source
becomes equality of ids, fresh objects get ids from `nextId`. -/
structure MatStore where
  recs : List (ℕ × MatRec)
  nextId : ℕ
deriving DecidableEq, Repr

/-- The two per-session refs: `safeMatCache` (source id to safe id) and
`createdMatsRef` (safe ids created by the converter). -/
structure SessionMats where
  cache : List (ℕ × ℕ)
  created : List ℕ
deriving DecidableEq, Repr

def emptySessionMats : SessionMats := ⟨[], []⟩

/-- Combined store plus session refs threaded through the build. -/
abbrev MatCtx := MatStore × SessionMats

def defaultMatRec : MatRec :=
  ⟨false, false, none, none, 0, 0, none, false, false⟩

/-- The safe record produced from source record `r` (lines 421-438):
a clone with the hook cleared for standard or physical sources, otherwise a
fresh `MeshStandardMaterial` with copied color, map and side and the
conservative `metalness 0.2 / roughness 0.6`. -/
def safeRecOf (r : MatRec) : MatRec :=
  if r.isStdPhys then
    { r with hook := false, needsUpdate := true, disposed := false }
  else
    { isStdPhys := true
      hook := false
      color := some (r.color.getD 0xffffff)
      mapTex := r.mapTex
      metalness := 1 / 5
      roughness := 3 / 5
      side := if r.side.isSome then r.side else some 0
      needsUpdate := true
      disposed := false }

/-- `convert` inside `toSafeMaterial` (lines 417-442): consult the cache
keyed by source identity; on a miss materialize the safe record as a fresh
object, record it in `createdMatsRef` and memoize it. -/
def convert (st : MatCtx) (m : ℕ) : ℕ × MatCtx :=
  match st.2.cache.lookup m with
  | some c => (c, st)
  | none =>
    let r := (st.1.recs.lookup m).getD defaultMatRec
    let ni := st.1.nextId
    (ni,
      (⟨st.1.recs ++ [(ni, safeRecOf r)], st.1.nextId + 1⟩,
       ⟨st.2.cache ++ [(m, ni)], st.2.created ++ [ni]⟩))

/-- `toSafeMaterial` over a material list (the `Array.isArray` branch of
line 443 maps `convert` over the list). -/
def convertList (st : MatCtx) : List ℕ → List ℕ × MatCtx
  | [] => ([], st)
  | m :: ms =>
    let (r, st1) := convert st m
    let (rs, st2) := convertList st1 ms
    (r :: rs, st2)

/-- A whole sequence of conversion requests, result ids dropped. -/
def runConverts (st : MatCtx) (ms : List ℕ) : MatCtx := (convertList st ms).2

/-- `disposeCurrent` on the material side (lines 456-460): every material
in `createdMatsRef` is disposed; the claims are about which records this
touches. -/
def disposeCreated (store : MatStore) (created : List ℕ) : MatStore :=
  ⟨store.recs.map
      (fun e => if created.contains e.1 then (e.1, { e.2 with disposed := true }) else e),
   store.nextId⟩

/-! ### Directions and offsets over the reals -/

/-- Real 3-vector, for the normalization step of `THREE.Vector3`. -/
structure VR where
  x : ℝ
  y : ℝ
  z : ℝ

noncomputable instance : Add VR := ⟨fun u v => ⟨u.x + v.x, u.y + v.y, u.z + v.z⟩⟩

noncomputable instance : SMul ℝ VR := ⟨fun c v => ⟨c * v.x, c * v.y, c * v.z⟩⟩

noncomputable def toVR (v : V3) : VR := ⟨(v.x : ℝ), (v.y : ℝ), (v.z : ℝ)⟩

noncomputable def VR.lengthSq (v : VR) : ℝ := v.x * v.x + v.y * v.y + v.z * v.z

noncomputable def VR.length (v : VR) : ℝ := Real.sqrt v.lengthSq

/-- `THREE.Vector3.normalize`: divide by `length() || 1`. -/
noncomputable def normR (v : VR) : VR :=
  if v.length = 0 then v else (v.length)⁻¹ • v

/-- The epsilon of the degenerate-direction guard (`1e-12`). -/
def dirEps : ℚ := 1 / 1000000000000

/-- The guard `if (dir.lengthSq() < 1e-12) dir.set(0, 1, 0)` shared by all
four direction sites (lines 529-530, 569-570, 591-592, 658-659). -/
def preDir (d : V3) : V3 := if d.lengthSq < dirEps then ⟨0, 1, 0⟩ else d

/-- Cached explode direction: degenerate-guard then `normalize()`. -/
noncomputable def dirOf (d : V3) : VR := normR (toVR (preDir d))

/-- A part of the exploded clone with its cached `ExplodeData`. -/
structure Part where
  geometry : Geom
  materials : List ℕ
  skinned : Bool
  skeleton : Option ℕ
  basePos : VR
  dir : VR
  position : VR

/-- The `useFrame` body per part (lines 696-699):
`position.copy(basePos).addScaledVector(dir, amount)`. -/
noncomputable def frameUpdate (p : Part) (amount : ℚ) : Part :=
  { p with position := p.basePos + (amount : ℝ) • p.dir }

/-! ### The build effect (`ExplodableModel`, lines 447-686) -/

/-- Case A part (lines 519-541): direction from the mesh world center to
the assembly center, base position cached before the offset, displacement
`amount * dir`. -/
noncomputable def mkPartA (src : Mesh) (rootC : V3) (amount : ℚ) (mats : List ℕ) : Part :=
  let d := ((worldBox src).center).sub rootC
  let dir := dirOf d
  { geometry := src.geometry
    materials := mats
    skinned := false
    skeleton := none
    basePos := toVR src.position
    dir := dir
    position := toVR src.position + (amount : ℝ) • dir }

/-- Wrapper of a spatially subdivided part (lines 561-577): direction from
the sub-mesh world center, displacement `amount * 1.5 * dir`; the material
of the sub-mesh is reused, not converted. -/
noncomputable def mkSubPart (sub : Mesh) (rootC : V3) (amount : ℚ) : Part :=
  let d := ((worldBox sub).center).sub rootC
  let dir := dirOf d
  { geometry := sub.geometry
    materials := sub.materials
    skinned := false
    skeleton := none
    basePos := toVR sub.position
    dir := dir
    position := toVR sub.position + ((amount : ℝ) * (3 / 2)) • dir }

/-- Single-mesh fallback part (lines 580-600): the original geometry is
kept unsplit, displacement `amount * 2 * dir`. -/
noncomputable def mkFallbackPart (only : Mesh) (rootC : V3) (amount : ℚ) (mats : List ℕ) : Part :=
  let d := ((worldBox only).center).sub rootC
  let dir := dirOf d
  { geometry := only.geometry
    materials := mats
    skinned := false
    skeleton := none
    basePos := toVR only.position
    dir := dir
    position := toVR only.position + ((amount : ℝ) * 2) • dir }

/-- Group-split part (lines 616-677): compacted sub-geometry, direction
from local sub-center to local whole-center, displacement `amount * dir`,
single safe material selected by the group's material index. -/
noncomputable def mkGroupPart (only : Mesh) (wholeCenter : V3) (amount : ℚ)
    (matId : ℕ) (sub : Geom) : Part :=
  let subCenter := (bboxOf sub.positions).center
  let dir := dirOf (subCenter.sub wholeCenter)
  { geometry := sub
    materials := [matId]
    skinned := false
    skeleton := none
    basePos := toVR only.position
    dir := dir
    position := toVR only.position + (amount : ℝ) • dir }

/-- Indices selected for a group (lines 622-624): a slice of the index
buffer, or the contiguous range `start .. start + count` when unindexed. -/
def groupSrcIndices (g : Geom) (grp : MatGroup) : List ℕ :=
  match g.index with
  | some idx => (idx.drop grp.start).take grp.count
  | none => (List.range grp.count).map (fun i => grp.start + i)

/-- Material selected for a group:
`origMaterials[matIdx] ?? origMaterials[0]` with `matIdx = materialIndex ?? 0`. -/
def groupMaterial (mats : List ℕ) (grp : MatGroup) : ℕ :=
  mats.getD (grp.materialIndex.getD 0) (mats.getD 0 0)

/-- The `for (const g of groups)` loop of the group-split path. -/
noncomputable def buildGroupParts (only : Mesh) (wholeCenter : V3) (amount : ℚ) :
    List MatGroup → MatCtx → List Part × MatCtx
  | [], st => ([], st)
  | grp :: rest, st =>
    let sub := compactIdx only.geometry (groupSrcIndices only.geometry grp)
    let (matId, st1) := convert st (groupMaterial only.materials grp)
    let p := mkGroupPart only wholeCenter amount matId sub
    let (ps, st2) := buildGroupParts only wholeCenter amount rest st1
    (p :: ps, st2)

/-- The `meshes.forEach` loop of case A, materials converted per mesh. -/
noncomputable def buildCaseA (rootC : V3) (amount : ℚ) :
    List Mesh → MatCtx → List Part × MatCtx
  | [], st => ([], st)
  | src :: rest, st =>
    let (mats, st1) := convertList st src.materials
    let p := mkPartA src rootC amount mats
    let (ps, st2) := buildCaseA rootC amount rest st1
    (p :: ps, st2)

/-- The body of the build effect for `explode = true` (lines 469-685):
two or more meshes explode individually (case A); a single mesh with no
groups is spatially subdivided, kept whole when that yields fewer than two
parts; a single mesh with groups is split per group. -/
noncomputable def buildParts (ms : List Mesh) (numParts : ℕ) (amount : ℚ)
    (st : MatCtx) : List Part × MatCtx :=
  let rootC := (sceneBox ms).center
  if 2 ≤ ms.length then buildCaseA rootC amount ms st
  else
    match ms with
    | [] => ([], st)
    | only :: _ =>
      if only.geometry.groups.isEmpty then
        let subs := subdivideGeometry only numParts
        if 1 < subs.length then
          (subs.map (fun s => mkSubPart s rootC amount), st)
        else
          let (mats, st1) := convertList st only.materials
          ([mkFallbackPart only rootC amount mats], st1)
      else
        buildGroupParts only ((bboxOf only.geometry.positions).center) amount
          only.geometry.groups st

/-! ### The effect / dependency semantics (`React.useEffect`, line 686) -/

/-- Mounted component state: the exploded group, the material refs, how
many times the partition-building effect body has run, `prevAmount` and
the dependency snapshot `[explode, amount]` of the last committed effect
(`origRoot` is fixed for a loaded asset). -/
structure RenderSession where
  group : Option (List Part)
  mats : MatCtx
  buildCount : ℕ
  prevAmount : ℚ
  deps : Option (Bool × ℚ)

/-- One committed render of `ExplodableModel`: the effect re-runs exactly
when its dependency list `[explode, amount, origRoot]` changed; its body
first disposes the current clone and resets the caches, then rebuilds the
partition when `explode` is on (lines 447-686). -/
noncomputable def commit (scene : List Mesh) (numParts : ℕ) (s : RenderSession)
    (explode : Bool) (amount : ℚ) : RenderSession :=
  if s.deps = some (explode, amount) then s
  else
    let store1 := disposeCreated s.mats.1 s.mats.2.created
    let st1 : MatCtx := (store1, emptySessionMats)
    if explode then
      let (ps, st2) := buildParts scene numParts amount st1
      { group := some ps, mats := st2, buildCount := s.buildCount + 1,
        prevAmount := amount, deps := some (explode, amount) }
    else
      { group := none, mats := st1, buildCount := s.buildCount,
        prevAmount := amount, deps := some (explode, amount) }

/-! ### Definitions following the words of the spec, for comparison -/

/-- Centroid of a triangle of a geometry. -/
def centroidOf (g : Geom) (t : Tri) : V3 :=
  ⟨((getV g.positions t.a).x + (getV g.positions t.b).x + (getV g.positions t.c).x) / 3,
   ((getV g.positions t.a).y + (getV g.positions t.b).y + (getV g.positions t.c).y) / 3,
   ((getV g.positions t.a).z + (getV g.positions t.b).z + (getV g.positions t.c).z) / 3⟩

/-- Octant bucket id as the spec words it (section 4.2 item 3): a 3-bit id
from the sign of `(centroid - center)` per axis.  This definition follows
the spec, not the source; it exists to be compared with
`subdivideGeometry`. -/
def octantBucket (center centroid : V3) : ℕ :=
  (if center.x < centroid.x then 1 else 0) +
  (if center.y < centroid.y then 2 else 0) +
  (if center.z < centroid.z then 4 else 0)

/-- Number of non-empty octant buckets of a geometry under the spec's
classification (one sub-geometry per non-empty bucket). -/
def octantBucketCount (g : Geom) : ℕ :=
  (((triangleList g).map
      (fun t => octantBucket (bboxOf g.positions).center (centroidOf g t))).dedup).length

/-- The radius the spec prescribes (section 4.4): half the diagonal length
of the root world bounding box.  This definition follows the spec, not the
source; the source never computes it. -/
noncomputable def claimRadius (ms : List Mesh) : ℝ :=
  (1 / 2) * (toVR (sceneBox ms).size).length

/-- The offset position the spec prescribes:
`basePosition + direction * (amount * radius)`.  This definition follows
the spec, to be compared with the positions the source computes. -/
noncomputable def claimOffsetPosition (base dir : VR) (amount radius : ℝ) : VR :=
  base + (amount * radius) • dir

/-! ### Concrete scenes used by counterexamples and witnesses -/

/-- A mesh whose geometry is the single local point `(0,0,0)`, placed at
`(px, 0, 0)`. -/
def ptMesh (px : ℚ) (matId : ℕ) : Mesh :=
  ⟨⟨px, 0, 0⟩, ⟨[⟨0, 0, 0⟩], none, none, none, []⟩, [matId], false, none⟩

/-- Two meshes at `(-3,0,0)` and `(3,0,0)`: assembly radius 3. -/
def sceneFar : List Mesh := [ptMesh (-3) 0, ptMesh 3 1]

/-- Two meshes at `(-1,0,0)` and `(1,0,0)`: the scenario of the claims. -/
def sceneNear : List Mesh := [ptMesh (-1) 0, ptMesh 1 1]

/-- A single mesh of two triangles mirrored about the y-axis; its spatial
subdivision with two parts yields one part per triangle. -/
def mSub : Mesh :=
  ⟨⟨0, 0, 0⟩,
   ⟨[⟨-4, 0, 0⟩, ⟨-2, 0, 0⟩, ⟨-3, 1, 0⟩, ⟨2, 0, 0⟩, ⟨4, 0, 0⟩, ⟨3, 1, 0⟩],
    none, none, some [0, 1, 2, 3, 4, 5], []⟩,
   [2], false, none⟩

/-- The two part meshes the spatial subdivision produces from `mSub`. -/
def mSubL : Mesh :=
  ⟨⟨0, 0, 0⟩, ⟨[⟨-4, 0, 0⟩, ⟨-2, 0, 0⟩, ⟨-3, 1, 0⟩], none, none, some [0, 1, 2], []⟩,
   [2], false, none⟩

def mSubR : Mesh :=
  ⟨⟨0, 0, 0⟩, ⟨[⟨2, 0, 0⟩, ⟨4, 0, 0⟩, ⟨3, 1, 0⟩], none, none, some [0, 1, 2], []⟩,
   [2], false, none⟩

/-- A lone point mesh: its spatial subdivision yields no parts, so the
fallback path keeps it whole. -/
def mSolo : Mesh := ptMesh 1 5

/-- Four triangle clusters along the x axis; spatial subdivision with four
parts yields four parts while the octant classification of the spec has
only two non-empty buckets. -/
def mC3 : Mesh :=
  ⟨⟨0, 0, 0⟩,
   ⟨[⟨0, 0, 0⟩, ⟨1, 0, 0⟩, ⟨0, 1, 0⟩,
     ⟨10, 0, 0⟩, ⟨11, 0, 0⟩, ⟨10, 1, 0⟩,
     ⟨20, 0, 0⟩, ⟨21, 0, 0⟩, ⟨20, 1, 0⟩,
     ⟨30, 0, 0⟩, ⟨31, 0, 0⟩, ⟨30, 1, 0⟩],
    none, none, none, []⟩,
   [0], false, none⟩

/-- A skinned mesh with two material groups and a shared skeleton id. -/
def skm : Mesh :=
  ⟨⟨0, 0, 0⟩,
   ⟨[⟨-4, 0, 0⟩, ⟨-2, 0, 0⟩, ⟨-3, 1, 0⟩, ⟨2, 0, 0⟩, ⟨4, 0, 0⟩, ⟨3, 1, 0⟩],
    none, none, some [0, 1, 2, 3, 4, 5],
    [⟨0, 3, some 0⟩, ⟨3, 3, some 1⟩]⟩,
   [10, 11], true, some 7⟩

/-- One triangle over three vertices: with three single-vertex slices the
triangle lands in every part, so parts triple the triangle count. -/
def mDup : Mesh :=
  ⟨⟨0, 0, 0⟩, ⟨[⟨0, 0, 0⟩, ⟨1, 0, 0⟩, ⟨2, 0, 0⟩], none, none, none, []⟩,
   [0], false, none⟩

/-- Total triangle count over a list of part meshes. -/
def totalTris (parts : List Mesh) : ℕ :=
  (parts.map (fun s => (triangleList s.geometry).length)).sum

/-- Empty material context. -/
def st0 : MatCtx := (⟨[], 0⟩, emptySessionMats)

/-- Session state right after mount, before any committed render. -/
def initialSession : RenderSession :=
  ⟨none, st0, 0, 0, none⟩

/-! ### Vector lemmas -/

theorem v3_lengthSq_mk (a b c : ℚ) : (⟨a, b, c⟩ : V3).lengthSq = a * a + b * b + c * c := rfl

theorem vr_add_mk (a b c d e f : ℝ) :
    (⟨a, b, c⟩ : VR) + ⟨d, e, f⟩ = ⟨a + d, b + e, c + f⟩ := rfl

theorem vr_smul_mk (r a b c : ℝ) : r • (⟨a, b, c⟩ : VR) = ⟨r * a, r * b, r * c⟩ := rfl

theorem vr_add_zero_smul (u w : VR) : u + (0 : ℝ) • w = u := by
  cases u with | mk ux uy uz =>
  cases w with | mk wx wy wz =>
  show (⟨ux + 0 * wx, uy + 0 * wy, uz + 0 * wz⟩ : VR) = ⟨ux, uy, uz⟩
  simp

theorem vr_lengthSq_smul (c : ℝ) (v : VR) : (c • v).lengthSq = c ^ 2 * v.lengthSq := by
  cases v with | mk vx vy vz =>
  show (c * vx) * (c * vx) + (c * vy) * (c * vy) + (c * vz) * (c * vz)
      = c ^ 2 * (vx * vx + vy * vy + vz * vz)
  ring

theorem vr_length_smul (c : ℝ) (v : VR) : (c • v).length = |c| * v.length := by
  unfold VR.length
  rw [vr_lengthSq_smul, Real.sqrt_mul (sq_nonneg c), Real.sqrt_sq_eq_abs]

theorem vr_lengthSq_nonneg (v : VR) : 0 ≤ v.lengthSq := by
  cases v with | mk vx vy vz =>
  show 0 ≤ vx * vx + vy * vy + vz * vz
  exact add_nonneg (add_nonneg (mul_self_nonneg vx) (mul_self_nonneg vy)) (mul_self_nonneg vz)

theorem normR_unit (v : VR) (h : 0 < v.lengthSq) : (normR v).length = 1 := by
  have hl : 0 < v.length := Real.sqrt_pos.mpr h
  unfold normR
  rw [if_neg hl.ne', vr_length_smul, abs_inv, abs_of_pos hl, inv_mul_cancel₀ hl.ne']

theorem vr_lengthSq_toVR (d : V3) : (toVR d).lengthSq = ((d.lengthSq : ℚ) : ℝ) := by
  cases d with | mk dx dy dz =>
  show ((dx : ℝ)) * dx + (dy : ℝ) * dy + (dz : ℝ) * dz = ((dx * dx + dy * dy + dz * dz : ℚ) : ℝ)
  push_cast
  ring

theorem dirEps_pos : (0 : ℚ) < dirEps := by norm_num [dirEps]

/-- Degenerate directions collapse to the fixed fallback axis exactly. -/
theorem dirOf_fallback (d : V3) (h : d.lengthSq < dirEps) : dirOf d = ⟨0, 1, 0⟩ := by
  unfold dirOf preDir
  rw [if_pos h]
  have ht : toVR ⟨0, 1, 0⟩ = (⟨0, 1, 0⟩ : VR) := by
    unfold toVR
    norm_num
  rw [ht]
  have hl : (⟨0, 1, 0⟩ : VR).length = 1 := by
    unfold VR.length
    have : (⟨0, 1, 0⟩ : VR).lengthSq = 1 := by
      show (0 : ℝ) * 0 + 1 * 1 + 0 * 0 = 1
      norm_num
    rw [this, Real.sqrt_one]
  unfold normR
  rw [if_neg (by rw [hl]; norm_num), hl]
  show (⟨(1 : ℝ)⁻¹ * 0, (1 : ℝ)⁻¹ * 1, (1 : ℝ)⁻¹ * 0⟩ : VR) = ⟨0, 1, 0⟩
  norm_num

/-- Non-degenerate directions come out of `normalize()` with unit length. -/
theorem dirOf_unit (d : V3) (h : dirEps ≤ d.lengthSq) : (dirOf d).length = 1 := by
  unfold dirOf preDir
  rw [if_neg (not_lt.mpr h)]
  refine normR_unit _ ?_
  rw [vr_lengthSq_toVR]
  have : (0 : ℚ) < d.lengthSq := lt_of_lt_of_le dirEps_pos h
  exact_mod_cast this

/-- Closed form of the cached direction for a vector along the x axis. -/
theorem dirOf_xaxis (q : ℚ) (hq : q ≠ 0) (he : dirEps ≤ q * q) :
    dirOf ⟨q, 0, 0⟩ = ⟨(q : ℝ) / |(q : ℝ)|, 0, 0⟩ := by
  unfold dirOf preDir
  rw [v3_lengthSq_mk, if_neg (by push_neg; calc dirEps ≤ q * q := he
        _ ≤ q * q + 0 * 0 + 0 * 0 := by ring_nf; exact le_refl _)]
  have ht : toVR ⟨q, 0, 0⟩ = (⟨(q : ℝ), 0, 0⟩ : VR) := by
    unfold toVR
    norm_num
  rw [ht]
  have hq0 : ((q : ℝ)) ≠ 0 := by exact_mod_cast hq
  have hlsq : (⟨(q : ℝ), 0, 0⟩ : VR).lengthSq = (q : ℝ) ^ 2 := by
    show (q : ℝ) * q + 0 * 0 + 0 * 0 = (q : ℝ) ^ 2
    ring
  have hlen : (⟨(q : ℝ), 0, 0⟩ : VR).length = |(q : ℝ)| := by
    unfold VR.length
    rw [hlsq, Real.sqrt_sq_eq_abs]
  unfold normR
  rw [if_neg (by rw [hlen]; exact abs_ne_zero.mpr hq0), hlen]
  show (⟨|(q : ℝ)|⁻¹ * q, |(q : ℝ)|⁻¹ * 0, |(q : ℝ)|⁻¹ * 0⟩ : VR) = ⟨(q : ℝ) / |(q : ℝ)|, 0, 0⟩
  rw [div_eq_mul_inv, mul_comm]
  norm_num

theorem dirOf_p3 : dirOf ⟨3, 0, 0⟩ = ⟨1, 0, 0⟩ := by
  rw [dirOf_xaxis 3 (by norm_num) (by norm_num [dirEps])]
  norm_num

theorem dirOf_n3 : dirOf ⟨-3, 0, 0⟩ = ⟨-1, 0, 0⟩ := by
  rw [dirOf_xaxis (-3) (by norm_num) (by norm_num [dirEps])]
  norm_num

theorem dirOf_p1 : dirOf ⟨1, 0, 0⟩ = ⟨1, 0, 0⟩ := by
  rw [dirOf_xaxis 1 (by norm_num) (by norm_num [dirEps])]
  norm_num

theorem dirOf_n1 : dirOf ⟨-1, 0, 0⟩ = ⟨-1, 0, 0⟩ := by
  rw [dirOf_xaxis (-1) (by norm_num) (by norm_num [dirEps])]
  norm_num

theorem dirOf_zero : dirOf ⟨0, 0, 0⟩ = ⟨0, 1, 0⟩ :=
  dirOf_fallback _ (by norm_num [v3_lengthSq_mk, dirEps])

/-! ### Claim theorems: C4 and C7 -/

/-- C4: after preparation, running the per-frame offset update with
amount 0 puts every part exactly back at its cached base position, and on
every build path that base position is the position recorded before the
first offset was applied (the pre-explode pose of the source mesh). -/
theorem c4_amount_zero_restores_base :
    (∀ p : Part, (frameUpdate p 0).position = p.basePos) ∧
    (∀ (src : Mesh) (rootC : V3) (amount : ℚ) (mats : List ℕ),
      (mkPartA src rootC amount mats).basePos = toVR src.position) ∧
    (∀ (sub : Mesh) (rootC : V3) (amount : ℚ),
      (mkSubPart sub rootC amount).basePos = toVR sub.position) ∧
    (∀ (only : Mesh) (rootC : V3) (amount : ℚ) (mats : List ℕ),
      (mkFallbackPart only rootC amount mats).basePos = toVR only.position) ∧
    (∀ (only : Mesh) (wc : V3) (amount : ℚ) (matId : ℕ) (sub : Geom),
      (mkGroupPart only wc amount matId sub).basePos = toVR only.position) := by
  refine ⟨fun p => ?_, fun _ _ _ _ => rfl, fun _ _ _ => rfl, fun _ _ _ _ => rfl,
    fun _ _ _ _ _ => rfl⟩
  show p.basePos + ((0 : ℚ) : ℝ) • p.dir = p.basePos
  rw [show ((0 : ℚ) : ℝ) = 0 by norm_num]
  exact vr_add_zero_smul _ _

/-- C7: the cached explode direction is the normalization of the center
difference and has unit length whenever the squared length reaches the
epsilon `1e-12`; below the epsilon it is exactly the fallback axis
`(0, 1, 0)`. -/
theorem c7_direction_normalized_or_fallback :
    ∀ d : V3,
      (d.lengthSq < dirEps → dirOf d = ⟨0, 1, 0⟩) ∧
      (dirEps ≤ d.lengthSq → (dirOf d).length = 1) :=
  fun d => ⟨dirOf_fallback d, dirOf_unit d⟩

/-- Witness for C7 at the concrete inputs `(0,0,0)` and `(3,4,0)`. -/
theorem c7_witness :
    ((⟨0, 0, 0⟩ : V3).lengthSq < dirEps ∧ dirOf ⟨0, 0, 0⟩ = ⟨0, 1, 0⟩) ∧
    (dirEps ≤ (⟨3, 4, 0⟩ : V3).lengthSq ∧ (dirOf ⟨3, 4, 0⟩).length = 1) :=
  ⟨⟨by norm_num [v3_lengthSq_mk, dirEps],
    (c7_direction_normalized_or_fallback ⟨0, 0, 0⟩).1 (by norm_num [v3_lengthSq_mk, dirEps])⟩,
   ⟨by norm_num [v3_lengthSq_mk, dirEps],
    (c7_direction_normalized_or_fallback ⟨3, 4, 0⟩).2 (by norm_num [v3_lengthSq_mk, dirEps])⟩⟩

/-! ### Association-list lemmas for the material caches -/

theorem lookup_append_self {β : Type} (l : List (ℕ × β)) (m : ℕ) (b : β)
    (h : l.lookup m = none) : (l ++ [(m, b)]).lookup m = some b := by
  induction l with
  | nil => simp [List.lookup]
  | cons e l ih =>
    obtain ⟨k, v⟩ := e
    rw [List.cons_append]
    rw [List.lookup_cons] at h ⊢
    cases hmk : (m == k) with
    | true => simp [hmk] at h
    | false => simpa [hmk] using ih (by simpa [hmk] using h)

theorem keys_of_lookup_none {β : Type} (l : List (ℕ × β)) (m : ℕ)
    (h : l.lookup m = none) : ∀ e ∈ l, e.1 ≠ m := by
  induction l with
  | nil => intro e he; simp at he
  | cons e l ih =>
    obtain ⟨k, v⟩ := e
    rw [List.lookup_cons] at h
    cases hmk : (m == k) with
    | true => simp [hmk] at h
    | false =>
      intro f hf
      rcases List.mem_cons.mp hf with hf | hf
      · subst hf
        intro hk
        have hk2 : k = m := hk
        rw [hk2] at hmk
        simp at hmk
      · exact ih (by simpa [hmk] using h) f hf

theorem lookup_none_of_keys {β : Type} (l : List (ℕ × β)) (m : ℕ)
    (h : ∀ e ∈ l, e.1 ≠ m) : l.lookup m = none := by
  induction l with
  | nil => rfl
  | cons e l ih =>
    obtain ⟨k, v⟩ := e
    rw [List.lookup_cons]
    have hk : k ≠ m := h (k, v) (List.mem_cons_self _ _)
    have hmk : (m == k) = false := by simp [Ne.symm hk]
    simpa [hmk] using ih (fun f hf => h f (List.mem_cons_of_mem _ hf))

theorem lookup_append_left {β : Type} (l1 l2 : List (ℕ × β)) (m : ℕ)
    (h : ∀ e ∈ l2, e.1 ≠ m) : (l1 ++ l2).lookup m = l1.lookup m := by
  induction l1 with
  | nil => simpa using lookup_none_of_keys l2 m h
  | cons e l ih =>
    obtain ⟨k, v⟩ := e
    rw [List.cons_append, List.lookup_cons, List.lookup_cons]
    cases hmk : (m == k) <;> simp [hmk, ih]

theorem lookup_map_dispose (created : List ℕ) (m : ℕ) (h : ¬ m ∈ created) :
    ∀ recs : List (ℕ × MatRec),
      (recs.map
          (fun e =>
            if created.contains e.1 then (e.1, { e.2 with disposed := true }) else e)).lookup m
        = recs.lookup m := by
  intro recs
  induction recs with
  | nil => rfl
  | cons e l ih =>
    obtain ⟨k, v⟩ := e
    rw [List.map_cons]
    dsimp only
    by_cases hc : created.contains k = true
    · have hkc : k ∈ created := by simpa using hc
      have hne : m ≠ k := fun hmk => h (hmk ▸ hkc)
      have hkm : (m == k) = false := by simp [hne]
      rw [if_pos hc, List.lookup_cons, List.lookup_cons]
      simp only [hkm]
      exact ih
    · rw [if_neg hc, List.lookup_cons, List.lookup_cons]
      cases hmk : (m == k)
      · simp only [hmk]
        exact ih
      · simp only [hmk]

/-! ### Behavior of `convert` and conversion runs -/

theorem convert_hit (st : MatCtx) (m c : ℕ) (h : st.2.cache.lookup m = some c) :
    convert st m = (c, st) := by
  unfold convert
  rw [h]

theorem convert_miss (st : MatCtx) (m : ℕ) (h : st.2.cache.lookup m = none) :
    convert st m =
      (st.1.nextId,
        (⟨st.1.recs ++ [(st.1.nextId, safeRecOf ((st.1.recs.lookup m).getD defaultMatRec))],
          st.1.nextId + 1⟩,
         ⟨st.2.cache ++ [(m, st.1.nextId)], st.2.created ++ [st.1.nextId]⟩)) := by
  unfold convert
  rw [h]

theorem convert_miss2 (store : MatStore) (sm : SessionMats) (m : ℕ)
    (h : sm.cache.lookup m = none) :
    convert (store, sm) m =
      (store.nextId,
        (⟨store.recs ++ [(store.nextId, safeRecOf ((store.recs.lookup m).getD defaultMatRec))],
          store.nextId + 1⟩,
         ⟨sm.cache ++ [(m, store.nextId)], sm.created ++ [store.nextId]⟩)) :=
  convert_miss (store, sm) m h

theorem matstore_recs (a : List (ℕ × MatRec)) (n : ℕ) : (MatStore.mk a n).recs = a := rfl

theorem matstore_next (a : List (ℕ × MatRec)) (n : ℕ) : (MatStore.mk a n).nextId = n := rfl

theorem sessionmats_cache (c : List (ℕ × ℕ)) (r : List ℕ) : (SessionMats.mk c r).cache = c := rfl

theorem sessionmats_created (c : List (ℕ × ℕ)) (r : List ℕ) :
    (SessionMats.mk c r).created = r := rfl

theorem runConverts_cons (st : MatCtx) (m : ℕ) (ms : List ℕ) :
    runConverts st (m :: ms) = runConverts (convert st m).2 ms := by
  rcases h : convert st m with ⟨r, st1⟩
  rcases h2 : convertList st1 ms with ⟨rs, st2⟩
  simp [runConverts, convertList, h, h2]

/-- A second conversion request for the same source within a session hits
the cache: it returns the identical instance and leaves the state alone. -/
theorem convert_twice (st : MatCtx) (m : ℕ) :
    convert (convert st m).2 m = ((convert st m).1, (convert st m).2) := by
  cases h : st.2.cache.lookup m with
  | some c =>
    rw [convert_hit st m c h]
    exact convert_hit st m c h
  | none =>
    rw [convert_miss st m h]
    exact convert_hit _ m st.1.nextId (lookup_append_self _ _ _ h)

/-- Invariant of a conversion run: created count equals cache size, cache
keys stay distinct, and every cache key was requested. -/
theorem runConverts_cache_invariant (ms : List ℕ) :
    ∀ (store : MatStore) (sm : SessionMats) (seen : List ℕ),
      sm.created.length = sm.cache.length →
      (sm.cache.map Prod.fst).Nodup →
      (∀ k ∈ sm.cache.map Prod.fst, k ∈ seen) →
      ((runConverts (store, sm) ms).2.created.length
          = (runConverts (store, sm) ms).2.cache.length ∧
        ((runConverts (store, sm) ms).2.cache.map Prod.fst).Nodup ∧
        (∀ k ∈ (runConverts (store, sm) ms).2.cache.map Prod.fst, k ∈ seen ++ ms)) := by
  induction ms with
  | nil =>
    intro store sm seen h1 h2 h3
    refine ⟨h1, h2, ?_⟩
    intro k hk
    simpa using h3 k hk
  | cons m ms ih =>
    intro store sm seen h1 h2 h3
    rw [runConverts_cons]
    cases h : sm.cache.lookup m with
    | some c =>
      have hcv : (convert (store, sm) m).2 = (store, sm) := by rw [convert_hit _ m c h]
      rw [hcv]
      have step := ih store sm (seen ++ [m]) h1 h2
        (fun k hk => List.mem_append.mpr (Or.inl (h3 k hk)))
      refine ⟨step.1, step.2.1, ?_⟩
      intro k hk
      have := step.2.2 k hk
      simp only [List.append_assoc, List.singleton_append] at this
      exact this
    | none =>
      rw [convert_miss2 store sm m h]
      have hnm : ∀ e ∈ sm.cache, e.1 ≠ m := keys_of_lookup_none _ _ h
      have h1n : ((SessionMats.mk (sm.cache ++ [(m, store.nextId)])
          (sm.created ++ [store.nextId])).created).length
          = ((SessionMats.mk (sm.cache ++ [(m, store.nextId)])
          (sm.created ++ [store.nextId])).cache).length := by
        rw [sessionmats_cache, sessionmats_created]
        simp [h1]
      have h2n : (((SessionMats.mk (sm.cache ++ [(m, store.nextId)])
          (sm.created ++ [store.nextId])).cache).map Prod.fst).Nodup := by
        rw [sessionmats_cache, List.map_append, List.nodup_append]
        refine ⟨h2, by simp, ?_⟩
        intro k hk hk2
        simp only [List.map_cons, List.map_nil, List.mem_singleton] at hk2
        rcases List.mem_map.mp hk with ⟨e, he, hke⟩
        exact hnm e he (by rw [hke, hk2])
      have h3n : ∀ k ∈ ((SessionMats.mk (sm.cache ++ [(m, store.nextId)])
          (sm.created ++ [store.nextId])).cache).map Prod.fst, k ∈ seen ++ [m] := by
        rw [sessionmats_cache]
        intro k hk
        rw [List.map_append] at hk
        rcases List.mem_append.mp hk with hk | hk
        · exact List.mem_append.mpr (Or.inl (h3 k hk))
        · simp only [List.map_cons, List.map_nil, List.mem_singleton] at hk
          exact List.mem_append.mpr (Or.inr (by simp [hk]))
      have step := ih
        ⟨store.recs ++ [(store.nextId, safeRecOf ((store.recs.lookup m).getD defaultMatRec))],
          store.nextId + 1⟩
        ⟨sm.cache ++ [(m, store.nextId)], sm.created ++ [store.nextId]⟩
        (seen ++ [m]) h1n h2n h3n
      refine ⟨step.1, step.2.1, ?_⟩
      intro k hk
      have hk2 := step.2.2 k hk
      simp only [List.append_assoc, List.singleton_append] at hk2
      exact hk2

/-- C8: `toSafeMaterial` is memoized per source identity: converting the
same source twice within one session returns the reference-identical safe
material with no state change, and a whole run of conversion requests
creates at most one material per distinct source. -/
theorem c8_safe_material_memoized :
    (∀ (st : MatCtx) (m : ℕ),
      convert (convert st m).2 m = ((convert st m).1, (convert st m).2)) ∧
    (∀ (store : MatStore) (ms : List ℕ),
      (runConverts (store, emptySessionMats) ms).2.created.length ≤ ms.dedup.length) := by
  refine ⟨convert_twice, ?_⟩
  intro store ms
  obtain ⟨h1, h2, h3⟩ := runConverts_cache_invariant ms store emptySessionMats []
    (by rfl) (by simp [emptySessionMats]) (by simp [emptySessionMats])
  set keys := (runConverts (store, emptySessionMats) ms).2.cache.map Prod.fst with hkeys
  have hsub : ∀ k ∈ keys, k ∈ ms := by
    intro k hk
    simpa using h3 k hk
  calc (runConverts (store, emptySessionMats) ms).2.created.length
      = keys.length := by rw [h1, hkeys, List.length_map]
    _ = keys.toFinset.card := (List.toFinset_card_of_nodup h2).symm
    _ ≤ ms.toFinset.card := by
        refine Finset.card_le_card ?_
        intro k hk
        rw [List.mem_toFinset] at hk ⊢
        exact hsub k hk
    _ = ms.dedup.length := List.card_toFinset ms

/-- Conversion runs only ever append fresh records to the store and only
record fresh ids as created. -/
theorem runConverts_appends (ms : List ℕ) :
    ∀ (store : MatStore) (sm : SessionMats),
      (∃ extra, (runConverts (store, sm) ms).1.recs = store.recs ++ extra ∧
        ∀ e ∈ extra, store.nextId ≤ e.1) ∧
      store.nextId ≤ (runConverts (store, sm) ms).1.nextId ∧
      (∀ i ∈ (runConverts (store, sm) ms).2.created, i ∈ sm.created ∨ store.nextId ≤ i) := by
  induction ms with
  | nil =>
    intro store sm
    exact ⟨⟨[], by simp [runConverts, convertList], by simp⟩, le_refl _,
      fun i hi => Or.inl hi⟩
  | cons m ms ih =>
    intro store sm
    rw [runConverts_cons]
    cases h : sm.cache.lookup m with
    | some c =>
      rw [show (convert (store, sm) m).2 = (store, sm) by rw [convert_hit _ m c h]]
      exact ih store sm
    | none =>
      rw [convert_miss2 store sm m h]
      dsimp only
      obtain ⟨⟨extra2, hrecs2, hex2⟩, hnext2, hcr2⟩ := ih
        ⟨store.recs ++ [(store.nextId, safeRecOf ((store.recs.lookup m).getD defaultMatRec))],
          store.nextId + 1⟩
        ⟨sm.cache ++ [(m, store.nextId)], sm.created ++ [store.nextId]⟩
      have hrecs2n : (runConverts
          (⟨store.recs ++ [(store.nextId, safeRecOf ((store.recs.lookup m).getD defaultMatRec))],
            store.nextId + 1⟩,
           ⟨sm.cache ++ [(m, store.nextId)], sm.created ++ [store.nextId]⟩) ms).1.recs
          = (store.recs ++ [(store.nextId, safeRecOf ((store.recs.lookup m).getD defaultMatRec))])
            ++ extra2 := hrecs2
      have hex2n : ∀ e ∈ extra2, store.nextId + 1 ≤ e.1 := hex2
      have hnext2n : store.nextId + 1 ≤ (runConverts
          (⟨store.recs ++ [(store.nextId, safeRecOf ((store.recs.lookup m).getD defaultMatRec))],
            store.nextId + 1⟩,
           ⟨sm.cache ++ [(m, store.nextId)], sm.created ++ [store.nextId]⟩) ms).1.nextId := hnext2
      have hcr2n : ∀ i ∈ (runConverts
          (⟨store.recs ++ [(store.nextId, safeRecOf ((store.recs.lookup m).getD defaultMatRec))],
            store.nextId + 1⟩,
           ⟨sm.cache ++ [(m, store.nextId)], sm.created ++ [store.nextId]⟩) ms).2.created,
          i ∈ sm.created ++ [store.nextId] ∨ store.nextId + 1 ≤ i := hcr2
      clear hrecs2 hex2 hnext2 hcr2
      refine ⟨⟨(store.nextId,
          safeRecOf ((store.recs.lookup m).getD defaultMatRec)) :: extra2, ?_, ?_⟩, ?_, ?_⟩
      · rw [hrecs2n]
        simp
      · intro e he
        rcases List.mem_cons.mp he with he | he
        · rw [he]
        · have := hex2n e he
          omega
      · omega
      · intro i hi
        rcases hcr2n i hi with hi2 | hi2
        · rcases List.mem_append.mp hi2 with hi3 | hi3
          · exact Or.inl hi3
          · simp only [List.mem_singleton] at hi3
            exact Or.inr (by omega)
        · exact Or.inr (by omega)

/-- C9: a whole session of safe-material conversions followed by the
disposal of the converter-created instances leaves every pre-existing
material record exactly as it was: sources are never mutated and never
disposed. -/
theorem c9_sources_never_mutated :
    ∀ (store : MatStore) (ms : List ℕ) (src : ℕ), src < store.nextId →
      ((disposeCreated (runConverts (store, emptySessionMats) ms).1
          (runConverts (store, emptySessionMats) ms).2.created).recs.lookup src)
        = store.recs.lookup src := by
  intro store ms src hsrc
  obtain ⟨⟨extra, hrecs, hextra⟩, hnext, hcreated⟩ := runConverts_appends ms store emptySessionMats
  have hncr : ¬ src ∈ (runConverts (store, emptySessionMats) ms).2.created := by
    intro h
    rcases hcreated src h with h2 | h2
    · simp [emptySessionMats] at h2
    · omega
  unfold disposeCreated
  rw [matstore_recs, lookup_map_dispose _ _ hncr _, hrecs,
    lookup_append_left _ _ _ (fun e he => by have := hextra e he; omega)]

/-- Witness for C9: a store holding one non-standard source material with
a shader hook, two conversion requests for it, then disposal; the source
record is untouched. -/
theorem c9_witness :
    (3 < (⟨[(3, ⟨false, true, some 5, none, 0, 0, none, false, false⟩)], 4⟩ : MatStore).nextId) ∧
    ((disposeCreated
        (runConverts ((⟨[(3, ⟨false, true, some 5, none, 0, 0, none, false, false⟩)], 4⟩ : MatStore),
          emptySessionMats) [3, 3]).1
        (runConverts ((⟨[(3, ⟨false, true, some 5, none, 0, 0, none, false, false⟩)], 4⟩ : MatStore),
          emptySessionMats) [3, 3]).2.created).recs.lookup 3)
      = (⟨[(3, ⟨false, true, some 5, none, 0, 0, none, false, false⟩)], 4⟩ : MatStore).recs.lookup 3 :=
  ⟨by norm_num,
   c9_sources_never_mutated ⟨[(3, ⟨false, true, some 5, none, 0, 0, none, false, false⟩)], 4⟩
     [3, 3] 3 (by norm_num)⟩

/-! ### Evaluation lemmas for the build paths -/

theorem toVR_mk (x y z : ℚ) : toVR ⟨x, y, z⟩ = ⟨(x : ℝ), (y : ℝ), (z : ℝ)⟩ := rfl

/-- Case A produces, mesh by mesh, the position, direction and base of
`mkPartA`, independently of the material cache threading. -/
theorem buildCaseA_shape (rootC : V3) (a : ℚ) :
    ∀ (ms : List Mesh) (st : MatCtx),
      ((buildCaseA rootC a ms st).1.map Part.position)
        = ms.map (fun src =>
            toVR src.position + (a : ℝ) • dirOf (((worldBox src).center).sub rootC)) ∧
      ((buildCaseA rootC a ms st).1.map Part.dir)
        = ms.map (fun src => dirOf (((worldBox src).center).sub rootC)) ∧
      ((buildCaseA rootC a ms st).1.map Part.basePos)
        = ms.map (fun src => toVR src.position) := by
  intro ms
  induction ms with
  | nil => intro st; simp [buildCaseA]
  | cons src rest ih =>
    intro st
    rcases h1 : convertList st src.materials with ⟨mats, st1⟩
    rcases h2 : buildCaseA rootC a rest st1 with ⟨ps, st2⟩
    have hu : buildCaseA rootC a (src :: rest) st = (mkPartA src rootC a mats :: ps, st2) := by
      simp [buildCaseA, h1, h2]
    have ihr := ih st1
    rw [h2] at ihr
    rw [hu]
    simp only [List.map_cons]
    refine ⟨?_, ?_, ?_⟩
    · rw [show Part.position (mkPartA src rootC a mats)
          = toVR src.position + (a : ℝ) • dirOf (((worldBox src).center).sub rootC) from rfl,
        ihr.1]
    · rw [show Part.dir (mkPartA src rootC a mats)
          = dirOf (((worldBox src).center).sub rootC) from rfl, ihr.2.1]
    · rw [show Part.basePos (mkPartA src rootC a mats) = toVR src.position from rfl, ihr.2.2]

/-! ### Staged evaluation of the concrete scenes -/

theorem largestAxis_mSub : largestAxis (bboxOf mSub.geometry.positions).size = 0 := by
  norm_num [mSub, bboxOf, Box3.expand, Box3.size, largestAxis, min_def, max_def]

theorem enumVerts_mSub :
    enumVerts mSub.geometry = [(0, -4), (1, -2), (2, -3), (3, 2), (4, 4), (5, 3)] := by
  unfold enumVerts
  rw [largestAxis_mSub]
  decide

theorem sortedVerts_mSub :
    sortedVerts mSub.geometry = [(0, -4), (2, -3), (1, -2), (3, 2), (5, 3), (4, 4)] := by
  unfold sortedVerts
  rw [enumVerts_mSub]
  decide

/-- The spatial subdivision of `mSub` with two parts: one part per
triangle, split at the sorted-vertex midpoint. -/
theorem subdivide_mSub : subdivideGeometry mSub 2 = [mSubL, mSubR] := by
  unfold subdivideGeometry partTrisOf partSlice
  rw [sortedVerts_mSub]
  decide

theorem subdivide_mSolo (np : ℕ) : subdivideGeometry mSolo np = [] := by
  unfold subdivideGeometry
  have h : ∀ p : ℕ, partTrisOf mSolo.geometry np p = none := by
    intro p
    unfold partTrisOf
    dsimp only
    split
    · rfl
    · rfl
  simp [h]

/-- C2 counterexample: in the two-mesh scene `sceneFar` with assembly
radius 3, the code moves each part by exactly `amount`, not by
`amount * radius` as the claim prescribes; at amount `1/2` the code lands
at x = -7/2 while the spec formula (with the code's own cached base and
direction) lands at x = -9/2. -/
theorem c2_counterexample :
    ((buildParts sceneFar 4 (1 / 2) st0).1.map Part.position) = [⟨-7 / 2, 0, 0⟩, ⟨7 / 2, 0, 0⟩] ∧
    ((buildParts sceneFar 4 (1 / 2) st0).1.map Part.dir) = [⟨-1, 0, 0⟩, ⟨1, 0, 0⟩] ∧
    ((buildParts sceneFar 4 (1 / 2) st0).1.map Part.basePos) = [toVR ⟨-3, 0, 0⟩, toVR ⟨3, 0, 0⟩] ∧
    claimRadius sceneFar = 3 ∧
    [claimOffsetPosition (toVR ⟨-3, 0, 0⟩) ⟨-1, 0, 0⟩ ((1 : ℝ) / 2) (claimRadius sceneFar),
     claimOffsetPosition (toVR ⟨3, 0, 0⟩) ⟨1, 0, 0⟩ ((1 : ℝ) / 2) (claimRadius sceneFar)]
      = [⟨-9 / 2, 0, 0⟩, ⟨9 / 2, 0, 0⟩] ∧
    ((buildParts sceneFar 4 (1 / 2) st0).1.map Part.position)
      ≠ [claimOffsetPosition (toVR ⟨-3, 0, 0⟩) ⟨-1, 0, 0⟩ ((1 : ℝ) / 2) (claimRadius sceneFar),
         claimOffsetPosition (toVR ⟨3, 0, 0⟩) ⟨1, 0, 0⟩ ((1 : ℝ) / 2) (claimRadius sceneFar)] := by
  have hb : buildParts sceneFar 4 (1 / 2) st0
      = buildCaseA ((sceneBox sceneFar).center) (1 / 2) sceneFar st0 := by
    unfold buildParts
    rw [if_pos (by decide : 2 ≤ sceneFar.length)]
  have hshape := buildCaseA_shape ((sceneBox sceneFar).center) (1 / 2) sceneFar st0
  have hd1 : ((worldBox (ptMesh (-3) 0)).center).sub ((sceneBox sceneFar).center)
      = ⟨-3, 0, 0⟩ := by
    norm_num [worldBox, ptMesh, bboxOf, Box3.translate, V3.add, V3.sub, sceneBox, sceneFar,
      Box3.union, Box3.center, min_def, max_def]
  have hd2 : ((worldBox (ptMesh 3 1)).center).sub ((sceneBox sceneFar).center)
      = ⟨3, 0, 0⟩ := by
    norm_num [worldBox, ptMesh, bboxOf, Box3.translate, V3.add, V3.sub, sceneBox, sceneFar,
      Box3.union, Box3.center, min_def, max_def]
  have hpos : ((buildParts sceneFar 4 (1 / 2) st0).1.map Part.position)
      = [⟨-7 / 2, 0, 0⟩, ⟨7 / 2, 0, 0⟩] := by
    rw [hb, hshape.1]
    show [toVR (ptMesh (-3) 0).position
        + ((1 / 2 : ℚ) : ℝ) • dirOf (((worldBox (ptMesh (-3) 0)).center).sub ((sceneBox sceneFar).center)),
      toVR (ptMesh 3 1).position
        + ((1 / 2 : ℚ) : ℝ) • dirOf (((worldBox (ptMesh 3 1)).center).sub ((sceneBox sceneFar).center))]
      = [⟨-7 / 2, 0, 0⟩, ⟨7 / 2, 0, 0⟩]
    rw [hd1, hd2, dirOf_n3, dirOf_p3]
    rw [show (ptMesh (-3) 0).position = ⟨-3, 0, 0⟩ from rfl,
      show (ptMesh 3 1).position = ⟨3, 0, 0⟩ from rfl, toVR_mk, toVR_mk, vr_smul_mk, vr_smul_mk,
      vr_add_mk, vr_add_mk]
    simp only [List.cons.injEq, and_true, VR.mk.injEq]
    norm_num
  have hdir : ((buildParts sceneFar 4 (1 / 2) st0).1.map Part.dir) = [⟨-1, 0, 0⟩, ⟨1, 0, 0⟩] := by
    rw [hb, hshape.2.1]
    show [dirOf (((worldBox (ptMesh (-3) 0)).center).sub ((sceneBox sceneFar).center)),
      dirOf (((worldBox (ptMesh 3 1)).center).sub ((sceneBox sceneFar).center))]
      = [⟨-1, 0, 0⟩, ⟨1, 0, 0⟩]
    rw [hd1, hd2, dirOf_n3, dirOf_p3]
  have hbase : ((buildParts sceneFar 4 (1 / 2) st0).1.map Part.basePos)
      = [toVR ⟨-3, 0, 0⟩, toVR ⟨3, 0, 0⟩] := by
    rw [hb, hshape.2.2]
    rfl
  have hrad : claimRadius sceneFar = 3 := by
    unfold claimRadius
    rw [show (sceneBox sceneFar).size = ⟨6, 0, 0⟩ from by
      norm_num [worldBox, ptMesh, bboxOf, Box3.translate, V3.add, sceneBox, sceneFar,
        Box3.union, Box3.size, min_def, max_def], toVR_mk]
    have h36 : (⟨((6 : ℚ) : ℝ), ((0 : ℚ) : ℝ), ((0 : ℚ) : ℝ)⟩ : VR).length = 6 := by
      unfold VR.length VR.lengthSq
      rw [show (((6 : ℚ) : ℝ)) * ((6 : ℚ) : ℝ) + ((0 : ℚ) : ℝ) * ((0 : ℚ) : ℝ)
          + ((0 : ℚ) : ℝ) * ((0 : ℚ) : ℝ) = 6 ^ 2 by push_cast; ring]
      rw [Real.sqrt_sq (by norm_num : (0 : ℝ) ≤ 6)]
    rw [h36]
    norm_num
  have hclaim : [claimOffsetPosition (toVR ⟨-3, 0, 0⟩) ⟨-1, 0, 0⟩ ((1 : ℝ) / 2) (claimRadius sceneFar),
      claimOffsetPosition (toVR ⟨3, 0, 0⟩) ⟨1, 0, 0⟩ ((1 : ℝ) / 2) (claimRadius sceneFar)]
      = [⟨-9 / 2, 0, 0⟩, ⟨9 / 2, 0, 0⟩] := by
    rw [hrad]
    unfold claimOffsetPosition
    rw [toVR_mk, toVR_mk, vr_smul_mk, vr_smul_mk, vr_add_mk, vr_add_mk]
    simp only [List.cons.injEq, and_true, VR.mk.injEq]
    norm_num
  refine ⟨hpos, hdir, hbase, hrad, hclaim, ?_⟩
  rw [hpos, hclaim]
  intro h
  have hx : ((-7 : ℝ) / 2) = -9 / 2 := congrArg VR.x (List.head_eq_of_cons_eq h)
  norm_num at hx

/-- The group-split loop positions each part at the source position plus
`amount` times the direction from the compacted sub-geometry's local
center to the whole-geometry center, independently of the material cache
threading (lines 666-671: the group-split displacement factor is 1). -/
theorem buildGroupParts_positions (only : Mesh) (wc : V3) (a : ℚ) :
    ∀ (grps : List MatGroup) (st : MatCtx),
      ((buildGroupParts only wc a grps st).1.map Part.position)
        = grps.map (fun grp =>
            toVR only.position + (a : ℝ) • dirOf
              (((bboxOf (compactIdx only.geometry
                  (groupSrcIndices only.geometry grp)).positions).center).sub wc)) := by
  intro grps
  induction grps with
  | nil => intro st; simp [buildGroupParts]
  | cons grp rest ih =>
    intro st
    rcases h1 : convert st (groupMaterial only.materials grp) with ⟨matId, st1⟩
    rcases h2 : buildGroupParts only wc a rest st1 with ⟨ps, st2⟩
    have hu : buildGroupParts only wc a (grp :: rest) st
        = (mkGroupPart only wc a matId
            (compactIdx only.geometry (groupSrcIndices only.geometry grp)) :: ps, st2) := by
      simp [buildGroupParts, h1, h2]
    have ihr := ih st1
    rw [h2] at ihr
    rw [hu]
    simp only [List.map_cons]
    rw [show Part.position (mkGroupPart only wc a matId
          (compactIdx only.geometry (groupSrcIndices only.geometry grp)))
        = toVR only.position + (a : ℝ) • dirOf
            (((bboxOf (compactIdx only.geometry
                (groupSrcIndices only.geometry grp)).positions).center).sub wc) from rfl, ihr]

/-- C2 amended: the displacement of a part is `amount` times its unit
direction, with a fixed per-path factor (1 in the multi-mesh path and in
the group-split path, 1.5 in the spatial-subdivision path, 2 in the
single-mesh fallback) and no dependence on the scene radius: at the
claim's two-mesh scenario the meshes at `(-1,0,0)` and `(1,0,0)` land at
`(-1-a,0,0)` and `(1+a,0,0)` for every amount `a`, and the group-split
parts of the two-group mesh `skm` land at `(-a,0,0)` and `(a,0,0)`. -/
theorem c2_displacement_per_path :
    ∀ a : ℚ,
      ((buildParts sceneNear 4 a st0).1.map Part.position)
        = [⟨-1 - (a : ℝ), 0, 0⟩, ⟨1 + (a : ℝ), 0, 0⟩] ∧
      ((buildParts [mSub] 2 a st0).1.map Part.position)
        = [⟨-((a : ℝ) * (3 / 2)), 0, 0⟩, ⟨(a : ℝ) * (3 / 2), 0, 0⟩] ∧
      ((buildParts [mSolo] 4 a st0).1.map Part.position)
        = [⟨1, (a : ℝ) * 2, 0⟩] ∧
      ((buildParts [skm] 4 a st0).1.map Part.position)
        = [⟨-(a : ℝ), 0, 0⟩, ⟨(a : ℝ), 0, 0⟩] := by
  intro a
  refine ⟨?_, ?_, ?_, ?_⟩
  · have hb : buildParts sceneNear 4 a st0
        = buildCaseA ((sceneBox sceneNear).center) a sceneNear st0 := by
      unfold buildParts
      rw [if_pos (by decide : 2 ≤ sceneNear.length)]
    have hd1 : ((worldBox (ptMesh (-1) 0)).center).sub ((sceneBox sceneNear).center)
        = ⟨-1, 0, 0⟩ := by
      norm_num [worldBox, ptMesh, bboxOf, Box3.translate, V3.add, V3.sub, sceneBox, sceneNear,
        Box3.union, Box3.center, min_def, max_def]
    have hd2 : ((worldBox (ptMesh 1 1)).center).sub ((sceneBox sceneNear).center)
        = ⟨1, 0, 0⟩ := by
      norm_num [worldBox, ptMesh, bboxOf, Box3.translate, V3.add, V3.sub, sceneBox, sceneNear,
        Box3.union, Box3.center, min_def, max_def]
    rw [hb, (buildCaseA_shape ((sceneBox sceneNear).center) a sceneNear st0).1]
    show [toVR (ptMesh (-1) 0).position
        + (a : ℝ) • dirOf (((worldBox (ptMesh (-1) 0)).center).sub ((sceneBox sceneNear).center)),
      toVR (ptMesh 1 1).position
        + (a : ℝ) • dirOf (((worldBox (ptMesh 1 1)).center).sub ((sceneBox sceneNear).center))]
      = [⟨-1 - (a : ℝ), 0, 0⟩, ⟨1 + (a : ℝ), 0, 0⟩]
    rw [hd1, hd2, dirOf_n1, dirOf_p1,
      show (ptMesh (-1) 0).position = ⟨-1, 0, 0⟩ from rfl,
      show (ptMesh 1 1).position = ⟨1, 0, 0⟩ from rfl, toVR_mk, toVR_mk,
      vr_smul_mk, vr_smul_mk, vr_add_mk, vr_add_mk]
    simp only [List.cons.injEq, and_true, VR.mk.injEq]
    push_cast
    refine ⟨⟨by ring, by ring, by ring⟩, by ring, by ring, by ring⟩
  · have hb : buildParts [mSub] 2 a st0
        = ((subdivideGeometry mSub 2).map
            (fun s => mkSubPart s ((sceneBox [mSub]).center) a), st0) := by
      unfold buildParts
      rw [if_neg (by decide : ¬ 2 ≤ ([mSub] : List Mesh).length)]
      dsimp only
      rw [if_pos (show mSub.geometry.groups.isEmpty = true from rfl)]
      rw [subdivide_mSub]
      rw [if_pos (by decide : 1 < ([mSubL, mSubR] : List Mesh).length)]
    have hdL : ((worldBox mSubL).center).sub ((sceneBox [mSub]).center) = ⟨-3, 0, 0⟩ := by
      norm_num [worldBox, mSub, mSubL, bboxOf, Box3.translate, Box3.expand, V3.add, V3.sub,
        sceneBox, Box3.center, min_def, max_def]
    have hdR : ((worldBox mSubR).center).sub ((sceneBox [mSub]).center) = ⟨3, 0, 0⟩ := by
      norm_num [worldBox, mSub, mSubR, bboxOf, Box3.translate, Box3.expand, V3.add, V3.sub,
        sceneBox, Box3.center, min_def, max_def]
    rw [hb, subdivide_mSub]
    simp only [List.map_cons, List.map_nil]
    rw [show Part.position (mkSubPart mSubL ((sceneBox [mSub]).center) a)
        = toVR mSubL.position
          + ((a : ℝ) * (3 / 2)) • dirOf (((worldBox mSubL).center).sub ((sceneBox [mSub]).center))
        from rfl,
      show Part.position (mkSubPart mSubR ((sceneBox [mSub]).center) a)
        = toVR mSubR.position
          + ((a : ℝ) * (3 / 2)) • dirOf (((worldBox mSubR).center).sub ((sceneBox [mSub]).center))
        from rfl,
      hdL, hdR, dirOf_n3, dirOf_p3,
      show mSubL.position = ⟨0, 0, 0⟩ from rfl, show mSubR.position = ⟨0, 0, 0⟩ from rfl,
      toVR_mk, vr_smul_mk, vr_smul_mk, vr_add_mk, vr_add_mk]
    simp only [List.cons.injEq, and_true, VR.mk.injEq]
    push_cast
    refine ⟨⟨by ring, by ring, by ring⟩, by ring, by ring, by ring⟩
  · have hdS : ((worldBox mSolo).center).sub ((sceneBox [mSolo]).center) = ⟨0, 0, 0⟩ := by
      norm_num [worldBox, mSolo, ptMesh, bboxOf, Box3.translate, V3.add, V3.sub,
        sceneBox, Box3.center, min_def, max_def]
    rcases hcl : convertList st0 mSolo.materials with ⟨mats, st1⟩
    have hb : buildParts [mSolo] 4 a st0
        = ([mkFallbackPart mSolo ((sceneBox [mSolo]).center) a mats], st1) := by
      unfold buildParts
      rw [if_neg (by decide : ¬ 2 ≤ ([mSolo] : List Mesh).length)]
      dsimp only
      rw [if_pos (show mSolo.geometry.groups.isEmpty = true from rfl)]
      rw [subdivide_mSolo 4]
      rw [if_neg (by decide : ¬ 1 < ([] : List Mesh).length)]
      rw [hcl]
    rw [hb]
    simp only [List.map_cons, List.map_nil]
    rw [show Part.position (mkFallbackPart mSolo ((sceneBox [mSolo]).center) a mats)
        = toVR mSolo.position
          + ((a : ℝ) * 2) • dirOf (((worldBox mSolo).center).sub ((sceneBox [mSolo]).center))
        from rfl,
      hdS, dirOf_zero, show mSolo.position = ⟨1, 0, 0⟩ from rfl,
      toVR_mk, vr_smul_mk, vr_add_mk]
    simp only [List.cons.injEq, and_true, VR.mk.injEq]
    push_cast
    refine ⟨by ring, by ring, by ring⟩
  · have hb : buildParts [skm] 4 a st0
        = buildGroupParts skm ((bboxOf skm.geometry.positions).center) a
            skm.geometry.groups st0 := by
      unfold buildParts
      rw [if_neg (by simp : ¬ 2 ≤ ([skm] : List Mesh).length)]
      dsimp only
      rw [if_neg (by decide : ¬ skm.geometry.groups.isEmpty = true)]
    have hcL : compactIdx skm.geometry
        (groupSrcIndices skm.geometry ⟨0, 3, some 0⟩) = mSubL.geometry := by decide
    have hcR : compactIdx skm.geometry
        (groupSrcIndices skm.geometry ⟨3, 3, some 1⟩) = mSubR.geometry := by decide
    have hdL : ((bboxOf mSubL.geometry.positions).center).sub
        ((bboxOf skm.geometry.positions).center) = ⟨-3, 0, 0⟩ := by
      norm_num [mSubL, skm, bboxOf, Box3.expand, Box3.center, V3.sub, min_def, max_def]
    have hdR : ((bboxOf mSubR.geometry.positions).center).sub
        ((bboxOf skm.geometry.positions).center) = ⟨3, 0, 0⟩ := by
      norm_num [mSubR, skm, bboxOf, Box3.expand, Box3.center, V3.sub, min_def, max_def]
    rw [hb, buildGroupParts_positions skm ((bboxOf skm.geometry.positions).center) a
      skm.geometry.groups st0,
      show skm.geometry.groups = [⟨0, 3, some 0⟩, ⟨3, 3, some 1⟩] from rfl]
    simp only [List.map_cons, List.map_nil]
    rw [hcL, hcR, hdL, hdR, dirOf_n3, dirOf_p3, show skm.position = ⟨0, 0, 0⟩ from rfl,
      toVR_mk, vr_smul_mk, vr_smul_mk, vr_add_mk, vr_add_mk]
    simp only [List.cons.injEq, and_true, VR.mk.injEq]
    push_cast
    refine ⟨⟨by ring, by ring, by ring⟩, by ring, by ring, by ring⟩

/-! ### Claim C6: the fallback keeps the mesh whole -/

/-- C6: when the spatial split of a single no-group mesh produces fewer
than two parts, the build keeps exactly one part whose geometry is the
original unsplit geometry, and that part still explodes as one rigid unit
along its single cached direction (with the fallback factor 2). -/
theorem c6_fallback_keeps_mesh :
    ∀ (only : Mesh) (np : ℕ) (a : ℚ) (st : MatCtx),
      only.geometry.groups = [] →
      (subdivideGeometry only np).length ≤ 1 →
      ∃ p st2, buildParts [only] np a st = ([p], st2) ∧
        p.geometry = only.geometry ∧
        p.basePos = toVR only.position ∧
        p.dir = dirOf (((worldBox only).center).sub ((sceneBox [only]).center)) ∧
        p.position = p.basePos + ((a : ℝ) * 2) • p.dir := by
  intro only np a st hg hlen
  rcases hcl : convertList st only.materials with ⟨mats, st1⟩
  refine ⟨mkFallbackPart only ((sceneBox [only]).center) a mats, st1, ?_, rfl, rfl, rfl, rfl⟩
  unfold buildParts
  rw [if_neg (by simp : ¬ 2 ≤ ([only] : List Mesh).length)]
  dsimp only
  rw [if_pos (show only.geometry.groups.isEmpty = true by rw [hg]; rfl)]
  rw [if_neg (by omega : ¬ 1 < (subdivideGeometry only np).length)]
  rw [hcl]

/-- Witness for C6 at the lone point mesh, whose spatial split is empty. -/
theorem c6_witness :
    mSolo.geometry.groups = [] ∧ (subdivideGeometry mSolo 4).length ≤ 1 ∧
    (∃ p st2, buildParts [mSolo] 4 1 st0 = ([p], st2) ∧
      p.geometry = mSolo.geometry ∧
      p.basePos = toVR mSolo.position ∧
      p.dir = dirOf (((worldBox mSolo).center).sub ((sceneBox [mSolo]).center)) ∧
      p.position = p.basePos + (((1 : ℚ) : ℝ) * 2) • p.dir) :=
  ⟨rfl, by rw [subdivide_mSolo 4]; simp,
   c6_fallback_keeps_mesh mSolo 4 1 st0 rfl (by rw [subdivide_mSolo 4]; simp)⟩

/-! ### Claim C5: skinned meshes are split into plain parts -/

/-- The group-split loop yields one part per group; every part is a plain
non-skinned mesh with no skeleton reference and a single material. -/
theorem buildGroupParts_shape (only : Mesh) (wc : V3) (a : ℚ) :
    ∀ (grps : List MatGroup) (st : MatCtx),
      (buildGroupParts only wc a grps st).1.length = grps.length ∧
      ((buildGroupParts only wc a grps st).1.map Part.skeleton)
        = grps.map (fun _ => none) ∧
      ∀ p ∈ (buildGroupParts only wc a grps st).1,
        p.skinned = false ∧ p.skeleton = none ∧ p.materials.length = 1 := by
  intro grps
  induction grps with
  | nil => intro st; simp [buildGroupParts]
  | cons grp rest ih =>
    intro st
    rcases h1 : convert st (groupMaterial only.materials grp) with ⟨matId, st1⟩
    rcases h2 : buildGroupParts only wc a rest st1 with ⟨ps, st2⟩
    have hu : buildGroupParts only wc a (grp :: rest) st
        = (mkGroupPart only wc a matId
            (compactIdx only.geometry (groupSrcIndices only.geometry grp)) :: ps, st2) := by
      simp [buildGroupParts, h1, h2]
    have ihr := ih st1
    rw [h2] at ihr
    rw [hu]
    refine ⟨by simpa using ihr.1, ?_, ?_⟩
    · simp only [List.map_cons]
      rw [ihr.2.1]
      rfl
    · intro p hp
      rcases List.mem_cons.mp hp with hp | hp
      · subst hp
        exact ⟨rfl, rfl, rfl⟩
      · exact ihr.2.2 p hp

/-- C5 counterexample: the skinned two-group mesh `skm` shares skeleton 7,
yet every part the group split produces carries no skeleton reference at
all (the parts are plain meshes), contradicting the claimed rebinding. -/
theorem c5_counterexample :
    skm.skinned = true ∧ skm.skeleton = some 7 ∧ skm.geometry.groups.length = 2 ∧
    ((buildParts [skm] 4 1 st0).1.map Part.skeleton) = [none, none] ∧
    ((buildParts [skm] 4 1 st0).1.map Part.skeleton) ≠ [skm.skeleton, skm.skeleton] := by
  have hb : buildParts [skm] 4 1 st0
      = buildGroupParts skm ((bboxOf skm.geometry.positions).center) 1 skm.geometry.groups st0 := by
    unfold buildParts
    rw [if_neg (by simp : ¬ 2 ≤ ([skm] : List Mesh).length)]
    dsimp only
    rw [if_neg (by decide : ¬ skm.geometry.groups.isEmpty = true)]
  have hsk := (buildGroupParts_shape skm ((bboxOf skm.geometry.positions).center) 1
    skm.geometry.groups st0).2.1
  refine ⟨rfl, rfl, rfl, ?_, ?_⟩
  · rw [hb, hsk]
    rfl
  · rw [hb, hsk]
    decide

/-- C5 amended: a skinned mesh with two or more groups is split per group
like a plain mesh: one part per group, each part non-skinned, with no
skeleton or bind-matrix reference, carrying a single (safe-converted)
material selected by the group's material index. -/
theorem c5_skinned_split_plain_parts :
    ∀ (m : Mesh) (np : ℕ) (a : ℚ) (st : MatCtx),
      m.skinned = true → 2 ≤ m.geometry.groups.length →
      ((buildParts [m] np a st).1.length = m.geometry.groups.length ∧
       ∀ p ∈ (buildParts [m] np a st).1,
         p.skinned = false ∧ p.skeleton = none ∧ p.materials.length = 1) := by
  intro m np a st hsk hg
  have hne : ¬ m.geometry.groups.isEmpty = true := by
    cases hgl : m.geometry.groups with
    | nil => rw [hgl] at hg; simp at hg
    | cons g gs => simp
  have hb : buildParts [m] np a st
      = buildGroupParts m ((bboxOf m.geometry.positions).center) a m.geometry.groups st := by
    unfold buildParts
    rw [if_neg (by simp : ¬ 2 ≤ ([m] : List Mesh).length)]
    dsimp only
    rw [if_neg hne]
  rw [hb]
  have hshape := buildGroupParts_shape m ((bboxOf m.geometry.positions).center) a
    m.geometry.groups st
  exact ⟨hshape.1, hshape.2.2⟩

/-- Witness for C5 amended at the skinned two-group mesh. -/
theorem c5_witness :
    skm.skinned = true ∧ 2 ≤ skm.geometry.groups.length ∧
    ((buildParts [skm] 4 1 st0).1.length = skm.geometry.groups.length ∧
     ∀ p ∈ (buildParts [skm] 4 1 st0).1,
       p.skinned = false ∧ p.skeleton = none ∧ p.materials.length = 1) :=
  ⟨rfl, by simp [skm],
   c5_skinned_split_plain_parts skm 4 1 st0 rfl (by simp [skm])⟩

/-! ### Claim C1: amount changes re-run partitioning -/

/-- A committed render whose dependencies changed and whose `explode` flag
is on runs the whole effect body: dispose, then a fresh partition build. -/
theorem commit_effect (scene : List Mesh) (np : ℕ) (s : RenderSession) (amount : ℚ)
    (h : ¬ s.deps = some (true, amount)) :
    (commit scene np s true amount).buildCount = s.buildCount + 1 ∧
    (commit scene np s true amount).group
      = some (buildParts scene np amount
          (disposeCreated s.mats.1 s.mats.2.created, emptySessionMats)).1 ∧
    (commit scene np s true amount).deps = some (true, amount) := by
  unfold commit
  rw [if_neg h]
  dsimp only
  rcases hb : buildParts scene np amount
      (disposeCreated s.mats.1 s.mats.2.created, emptySessionMats) with ⟨ps, st2⟩
  simp [hb]

theorem buildParts_near_length (a : ℚ) (st : MatCtx) :
    (buildParts sceneNear 4 a st).1.length = 2 := by
  have hb : buildParts sceneNear 4 a st
      = buildCaseA ((sceneBox sceneNear).center) a sceneNear st := by
    unfold buildParts
    rw [if_pos (by decide : 2 ≤ sceneNear.length)]
  rw [hb]
  have hl := congrArg List.length (buildCaseA_shape ((sceneBox sceneNear).center) a sceneNear st).1
  simpa using hl

/-- C1 (the code violates the claim): in the two-mesh scene, committing a
render with amount 3/10 and then one with amount 1/2 runs the
partition-building effect body twice, because `amount` sits in the effect
dependency list; the part count is 2 both times, but the partition is
disposed and rebuilt on the second commit rather than only offsets being
updated. -/
theorem c1_amount_change_rebuilds :
    (commit sceneNear 4 initialSession true (3 / 10)).buildCount = 1 ∧
    (commit sceneNear 4 (commit sceneNear 4 initialSession true (3 / 10)) true (1 / 2)).buildCount
      = 2 ∧
    ((commit sceneNear 4 initialSession true (3 / 10)).group.map List.length = some 2) ∧
    ((commit sceneNear 4 (commit sceneNear 4 initialSession true (3 / 10)) true (1 / 2)).group.map
        List.length = some 2) := by
  have h1 : ¬ initialSession.deps = some (true, (3 / 10 : ℚ)) := by
    simp [initialSession]
  obtain ⟨hc1, hg1, hd1⟩ := commit_effect sceneNear 4 initialSession (3 / 10) h1
  have h2 : ¬ (commit sceneNear 4 initialSession true (3 / 10)).deps
      = some (true, (1 / 2 : ℚ)) := by
    rw [hd1]
    simp only [Option.some.injEq, Prod.mk.injEq, true_and]
    norm_num
  obtain ⟨hc2, hg2, hd2⟩ := commit_effect sceneNear 4
    (commit sceneNear 4 initialSession true (3 / 10)) (1 / 2) h2
  refine ⟨?_, ?_, ?_, ?_⟩
  · rw [hc1]
    rfl
  · rw [hc2, hc1]
    rfl
  · rw [hg1]
    simp [buildParts_near_length]
  · rw [hg2]
    simp [buildParts_near_length]

/-! ### The sorted vertex list is a permutation with intact indices -/

theorem insertAsc_perm (x : ℕ × ℚ) : ∀ l : List (ℕ × ℚ), (insertAsc x l).Perm (x :: l) := by
  intro l
  induction l with
  | nil => exact List.Perm.refl _
  | cons y ys ih =>
    unfold insertAsc
    by_cases h : y.2 < x.2
    · rw [if_pos h]
      exact (List.Perm.cons y ih).trans (List.Perm.swap x y ys)
    · rw [if_neg h]

theorem sortVerts_perm : ∀ l : List (ℕ × ℚ), (sortVerts l).Perm l := by
  intro l
  induction l with
  | nil => exact List.Perm.refl _
  | cons x xs ih =>
    unfold sortVerts
    exact (insertAsc_perm x (sortVerts xs)).trans (List.Perm.cons x ih)

theorem sortedVerts_length (g : Geom) : (sortedVerts g).length = g.positions.length := by
  unfold sortedVerts
  rw [(sortVerts_perm (enumVerts g)).length_eq]
  unfold enumVerts
  simp

theorem mem_sortedVerts (g : Geom) (v : ℕ) (hv : v < g.positions.length) :
    (v, (getV g.positions v).comp (largestAxis (bboxOf g.positions).size)) ∈ sortedVerts g := by
  have hmem : (v, (getV g.positions v).comp (largestAxis (bboxOf g.positions).size))
      ∈ enumVerts g := by
    unfold enumVerts
    dsimp only
    exact List.mem_map.mpr ⟨v, List.mem_range.mpr hv, rfl⟩
  unfold sortedVerts
  exact (sortVerts_perm (enumVerts g)).mem_iff.mpr hmem

/-! ### Slice arithmetic -/

theorem vpp_pos (n np : ℕ) (hnp : 1 ≤ np) (hn : 1 ≤ n) : 0 < vppOf n np := by
  unfold vppOf
  exact (Nat.one_le_div_iff (by omega)).mpr (by omega)

theorem le_np_mul_vpp (n np : ℕ) (hnp : 1 ≤ np) : n ≤ np * vppOf n np := by
  unfold vppOf
  have hd := Nat.div_add_mod (n + np - 1) np
  have hm : (n + np - 1) % np < np := Nat.mod_lt _ (by omega)
  omega

/-- An element of the sorted list belongs to the slice its rank selects. -/
theorem rank_mem_partSlice (g : Geom) (np : ℕ) (r : ℕ)
    (hr : r < (sortedVerts g).length) (hvpp : 0 < vppOf g.positions.length np) :
    ((sortedVerts g).get ⟨r, hr⟩).1
      ∈ partSlice g np (r / vppOf g.positions.length np) := by
  set vpp := vppOf g.positions.length np with hvppdef
  set p := r / vpp with hpdef
  have h1 : p * vpp ≤ r := Nat.div_mul_le_self r vpp
  have h2 : r < (p + 1) * vpp := (Nat.div_lt_iff_lt_mul hvpp).mp (Nat.lt_succ_self p)
  rw [Nat.succ_mul] at h2
  unfold partSlice
  rw [← hvppdef]
  refine List.mem_map.mpr ⟨(sortedVerts g).get ⟨r, hr⟩, ?_, rfl⟩
  have hlt : r - p * vpp < (((sortedVerts g).drop (p * vpp)).take vpp).length := by
    rw [List.length_take, List.length_drop]
    omega
  have hget : (((sortedVerts g).drop (p * vpp)).take vpp)[r - p * vpp]
      = (sortedVerts g).get ⟨r, hr⟩ := by
    rw [List.getElem_take, List.getElem_drop]
    have : p * vpp + (r - p * vpp) = r := by omega
    simp only [this]
    rfl
  rw [← hget]
  exact List.getElem_mem hlt

/-! ### Triangle coverage of the spatial subdivision -/

/-- Every triangle whose first vertex index is valid lands in the part of
the slice containing that vertex, and that part is produced. -/
theorem triangle_covered (m : Mesh) (np : ℕ) (hnp : 1 ≤ np) (t : Tri)
    (ht : t ∈ triangleList m.geometry) (ha : t.a < m.geometry.positions.length) :
    ∃ p pt, p < np ∧ partTrisOf m.geometry np p = some pt ∧ t ∈ pt ∧
      mkSubMesh m (compactIdx m.geometry (flatTris pt)) ∈ subdivideGeometry m np := by
  set g := m.geometry with hgdef
  set n := g.positions.length with hndef
  set vpp := vppOf n np with hvppdef
  have hn1 : 1 ≤ n := by omega
  have hvpp : 0 < vpp := vpp_pos n np hnp hn1
  have hmem := mem_sortedVerts g t.a ha
  obtain ⟨r, hr, hgetr⟩ := List.mem_iff_getElem.mp hmem
  have hr2 : r < (sortedVerts g).length := hr
  have hfst : ((sortedVerts g).get ⟨r, hr2⟩).1 = t.a := by
    have : (sortedVerts g).get ⟨r, hr2⟩
        = (t.a, (getV g.positions t.a).comp (largestAxis (bboxOf g.positions).size)) := hgetr
    rw [this]
  set p := r / vpp with hpdef
  have hplt : p < np := by
    have hrn : r < n := by rw [hndef, ← sortedVerts_length g]; exact hr2
    have : r < np * vpp := lt_of_lt_of_le hrn (le_np_mul_vpp n np hnp)
    exact (Nat.div_lt_iff_lt_mul hvpp).mpr this
  have hslice : t.a ∈ partSlice g np p := by
    rw [← hfst]
    exact rank_mem_partSlice g np r hr2 hvpp
  have hnle : ¬ n ≤ p * vpp := by
    have h1 : p * vpp ≤ r := Nat.div_mul_le_self r vpp
    have hrn : r < n := by rw [hndef, ← sortedVerts_length g]; exact hr2
    omega
  set pt := (triangleList g).filter
    (fun t2 => (partSlice g np p).contains t2.a || (partSlice g np p).contains t2.b
      || (partSlice g np p).contains t2.c) with hptdef
  have htm : t ∈ pt := by
    refine List.mem_filter.mpr ⟨ht, ?_⟩
    have hc : (partSlice g np p).contains t.a = true := by
      exact List.elem_iff.mpr hslice
    rw [hc]
    simp
  have hpt : partTrisOf g np p = some pt := by
    unfold partTrisOf
    dsimp only
    rw [if_neg (by rw [← hndef, ← hvppdef]; exact hnle)]
    rw [← hptdef]
    rw [if_neg ?hempty]
    case hempty =>
      cases hptl : pt with
      | nil => rw [hptl] at htm; simp at htm
      | cons x xs => simp
  refine ⟨p, pt, hplt, hpt, htm, ?_⟩
  unfold subdivideGeometry
  refine List.mem_filterMap.mpr ⟨p, List.mem_range.mpr hplt, ?_⟩
  rw [← hgdef, hpt]
  rfl

/-! ### Staged evaluation for the octant comparison and duplication -/

theorem largestAxis_mC3 : largestAxis (bboxOf mC3.geometry.positions).size = 0 := by
  norm_num [mC3, bboxOf, Box3.expand, Box3.size, largestAxis, min_def, max_def]

theorem enumVerts_mC3 :
    enumVerts mC3.geometry
      = [(0, 0), (1, 1), (2, 0), (3, 10), (4, 11), (5, 10),
         (6, 20), (7, 21), (8, 20), (9, 30), (10, 31), (11, 30)] := by
  unfold enumVerts
  rw [largestAxis_mC3]
  decide

theorem sortedVerts_mC3 :
    sortedVerts mC3.geometry
      = [(0, 0), (2, 0), (1, 1), (3, 10), (5, 10), (4, 11),
         (6, 20), (8, 20), (7, 21), (9, 30), (11, 30), (10, 31)] := by
  unfold sortedVerts
  rw [enumVerts_mC3]
  decide

theorem subdivide_mC3_length : (subdivideGeometry mC3 4).length = 4 := by
  unfold subdivideGeometry partTrisOf partSlice
  rw [sortedVerts_mC3]
  decide

theorem octantCount_mC3 : octantBucketCount mC3.geometry = 2 := by
  unfold octantBucketCount
  have hmap : (triangleList mC3.geometry).map
      (fun t => octantBucket (bboxOf mC3.geometry.positions).center (centroidOf mC3.geometry t))
      = [0, 0, 1, 1] := by
    norm_num [mC3, triangleList, chunk3, octantBucket, centroidOf, getV, bboxOf,
      Box3.expand, Box3.center, min_def, max_def, List.range, List.range.loop]
  rw [hmap]
  decide

theorem largestAxis_mDup : largestAxis (bboxOf mDup.geometry.positions).size = 0 := by
  norm_num [mDup, bboxOf, Box3.expand, Box3.size, largestAxis, min_def, max_def]

theorem sortedVerts_mDup : sortedVerts mDup.geometry = [(0, 0), (1, 1), (2, 2)] := by
  unfold sortedVerts enumVerts
  rw [largestAxis_mDup]
  decide

theorem totalTris_mDup : totalTris (subdivideGeometry mDup 3) = 3 := by
  unfold totalTris subdivideGeometry partTrisOf partSlice
  rw [sortedVerts_mDup]
  decide

/-! ### Claim C3 -/

/-- C3 counterexample: on the four-cluster mesh `mC3` the spatial split
with the user part count 4 produces 4 parts, while the octant
classification the claim describes has only 2 non-empty buckets, so the
fallback is not the claimed per-octant split. -/
theorem c3_counterexample :
    (subdivideGeometry mC3 4).length = 4 ∧ octantBucketCount mC3.geometry = 2 ∧
    (subdivideGeometry mC3 4).length ≠ octantBucketCount mC3.geometry := by
  refine ⟨subdivide_mC3_length, octantCount_mC3, ?_⟩
  rw [subdivide_mC3_length, octantCount_mC3]
  decide

/-- C3 amended: the fallback spatial split sorts the vertices along the
largest bounding-box axis into `numParts` contiguous equal-size slices and
emits one sub-geometry per slice that receives a triangle, so it yields at
most `numParts` parts and at least 1 when the mesh has any triangle with a
valid first vertex index. -/
theorem c3_split_count_bounds :
    ∀ (m : Mesh) (np : ℕ), 1 ≤ np →
      triangleList m.geometry ≠ [] →
      (∀ t ∈ triangleList m.geometry, t.a < m.geometry.positions.length) →
      1 ≤ (subdivideGeometry m np).length ∧ (subdivideGeometry m np).length ≤ np := by
  intro m np hnp hne hval
  constructor
  · obtain ⟨t, ht⟩ := List.exists_mem_of_ne_nil _ hne
    obtain ⟨p, pt, _, _, _, hmem⟩ := triangle_covered m np hnp t ht (hval t ht)
    exact List.length_pos.mpr (List.ne_nil_of_mem hmem)
  · unfold subdivideGeometry
    exact le_trans (List.length_filterMap_le _ _) (le_of_eq (List.length_range np))

/-- Witness for C3 amended at the four-cluster mesh with part count 4. -/
theorem c3_witness :
    (1 ≤ 4 ∧ triangleList mC3.geometry ≠ [] ∧
      (∀ t ∈ triangleList mC3.geometry, t.a < mC3.geometry.positions.length)) ∧
    (1 ≤ (subdivideGeometry mC3 4).length ∧ (subdivideGeometry mC3 4).length ≤ 4) :=
  ⟨⟨by norm_num, by decide, by decide⟩,
   c3_split_count_bounds mC3 4 (by norm_num) (by decide) (by decide)⟩

/-! ### Claim C10 -/

/-- C10: every source triangle of the spatially subdivided mesh is
included in at least one produced part (the part of any slice holding one
of its vertices), and parts can duplicate triangles whose vertices span
slices, so the total triangle count across parts can exceed the source
count, as it does on `mDup` (3 versus 1). -/
theorem c10_triangle_coverage :
    (∀ (m : Mesh) (np : ℕ), 1 ≤ np →
      ∀ t ∈ triangleList m.geometry, t.a < m.geometry.positions.length →
        ∃ p pt, p < np ∧ partTrisOf m.geometry np p = some pt ∧ t ∈ pt ∧
          mkSubMesh m (compactIdx m.geometry (flatTris pt)) ∈ subdivideGeometry m np) ∧
    (totalTris (subdivideGeometry mDup 3) = 3 ∧ (triangleList mDup.geometry).length = 1) :=
  ⟨fun m np hnp t ht ha => triangle_covered m np hnp t ht ha,
   totalTris_mDup, by decide⟩

/-- Witness for C10 at the one-triangle mesh and part count 3. -/
theorem c10_witness :
    ((1 : ℕ) ≤ 3 ∧ (⟨0, 1, 2⟩ : Tri) ∈ triangleList mDup.geometry ∧
      (⟨0, 1, 2⟩ : Tri).a < mDup.geometry.positions.length) ∧
    (∃ p pt, p < 3 ∧ partTrisOf mDup.geometry 3 p = some pt ∧ (⟨0, 1, 2⟩ : Tri) ∈ pt ∧
      mkSubMesh mDup (compactIdx mDup.geometry (flatTris pt)) ∈ subdivideGeometry mDup 3) :=
  ⟨⟨by norm_num, by decide, by decide⟩,
   c10_triangle_coverage.1 mDup 3 (by norm_num) ⟨0, 1, 2⟩ (by decide) (by decide)⟩

end Demo3D
